import Mathlib

/-!
Shallow embedding of the Agenda Inteligente CP solver (src/solver.py).

Instants are modelled as integer minutes on the horizon timezone's local
timeline (a fixed-offset model of ZoneInfo); `parse_iso_localized` and ISO
output formatting are I/O plumbing and are not modelled, so payloads carry
already-localized minute values.  Day 0 of the timeline is 1970-01-01
(a Thursday), hence the weekday of a minute value m is (m.fdiv 1440 + 3) mod 7
with Monday = 0, matching Python's datetime.weekday().  The CP-SAT call is
modelled by an abstract outcome (failure, or a success valuation of the
boolean decision variables); `cpSolve` is an exact reference solver used
where CP-SAT's behaviour on the built model is determined (a genuinely
infeasible model yields a non-success status, a trivially feasible model
yields OPTIMAL).
-/

namespace AgendaSolver

/-- Ceiling division on integers (Python `math.ceil(a / b)` for exact
integer data and positive b). -/
def intCeilDiv (a b : Int) : Int := -((-a).fdiv b)

/-- Python `range(a, b)` as a list of integers (empty when b ≤ a). -/
def intRange (a b : Int) : List Int := (List.range (b - a).toNat).map (fun i => a + (i : Int))

/-- `day_index` of src/solver.py: the calendar day of a local instant.  The
source returns the (year, month, day) triple; two instants have equal triples
iff they have the same day number, which is what we keep. -/
def day_index (m : Int) : Int := m.fdiv 1440

/-- Python datetime.weekday() on the modelled timeline (Monday = 0); the
epoch day 1970-01-01 is a Thursday (= 3). -/
def weekday (m : Int) : Int := (day_index m + 3).emod 7

/-- Civil-from-days (Gregorian): day number since 1970-01-01 to (y, m, d). -/
def civilFromDays (z : Int) : Int × Int × Int :=
  let z' := z + 719468
  let era := z'.fdiv 146097
  let doe := z' - era * 146097
  let yoe := (doe - doe.fdiv 1460 + doe.fdiv 36524 - doe.fdiv 146096).fdiv 365
  let y := yoe + era * 400
  let doy := doe - (365 * yoe + yoe.fdiv 4 - yoe.fdiv 100)
  let mp := (5 * doy + 2).fdiv 153
  let d := doy - (153 * mp + 2).fdiv 5 + 1
  let mo := mp + (if mp < 10 then 3 else -9)
  (if mo ≤ 2 then y + 1 else y, mo, d)

/-- Days-from-civil (Gregorian): (y, m, d) to day number since 1970-01-01. -/
def daysFromCivil (y mo d : Int) : Int :=
  let y' := if mo ≤ 2 then y - 1 else y
  let era := y'.fdiv 400
  let yoe := y' - era * 400
  let mp := (mo + 9).emod 12
  let doy := (153 * mp + 2).fdiv 5 + d - 1
  let doe := yoe * 365 + yoe.fdiv 4 - yoe.fdiv 100 + doy
  era * 146097 + doe - 719468

/-- The `Horizon` dataclass: start/end instants in local minutes and the slot
width in minutes.  totalSlots, dt_to_slot, dt_to_next_slot, slot_to_dt and
slots_in_interval mirror the source methods (float floor/ceil on exact data
becomes integer floor/ceil division). -/
structure Horizon where
  startMin : Int
  endMin : Int
  slotMinutes : Int
deriving DecidableEq

def Horizon.total_slots (h : Horizon) : Int := intCeilDiv (h.endMin - h.startMin) h.slotMinutes

def Horizon.dt_to_slot (h : Horizon) (dt : Int) : Int := (dt - h.startMin).fdiv h.slotMinutes

def Horizon.slot_to_dt (h : Horizon) (s : Int) : Int := h.startMin + s * h.slotMinutes

def Horizon.dt_to_next_slot (h : Horizon) (dt : Int) : Int :=
  let base := h.dt_to_slot dt
  if h.slot_to_dt base < dt then base + 1 else base

def Horizon.slots_in_interval (h : Horizon) (a b : Int) : List Int :=
  let sa := h.dt_to_slot a
  let sb := h.dt_to_slot b
  let sb := if h.slot_to_dt sb < b then sb + 1 else sb
  let sa := max sa 0
  let sb := min sb h.total_slots
  intRange sa (max sa sb)

/-- `parse_hhmm`: validated hour/minute pair with a default.  (String
splitting is parsing plumbing; the embedded policy carries the raw pair.) -/
def parse_hhmm (v : Option (Int × Int)) (dflt : Int × Int) : Int × Int :=
  match v with
  | some hm => if 0 ≤ hm.1 ∧ hm.1 ≤ 23 ∧ 0 ≤ hm.2 ∧ hm.2 ≤ 59 then hm else dflt
  | none => dflt

/-- `safe_positive_int`: clamp to a non-negative int with a default for
missing values. -/
def safe_positive_int (v : Option Int) (dflt : Int) : Int :=
  match v with
  | some n => max 0 n
  | none => dflt

/-- Priority tags: the contract's closed enum. -/
inductive Priority where
  | UnI : Priority
  | InU : Priority
deriving DecidableEq

/-- Window tags (the default branch of `expand_window_slots` is `NONE`). -/
inductive Window where
  | PRONTO : Window
  | SEMANA : Window
  | MES : Window
  | RANGO : Window
  | NONE : Window
deriving DecidableEq

/-- Per-priority weight map (a `{UnI: _, InU: _}` JSON object). -/
structure PrioMap where
  unI : Int
  inU : Int
deriving DecidableEq

def PrioMap.get (w : PrioMap) : Priority → Int
  | Priority.UnI => w.unI
  | Priority.InU => w.inU

/-- The `weights` payload section. -/
structure Weights where
  move : PrioMap
  distancePerSlot : PrioMap
  offPreferencePerSlot : PrioMap
  crossDayPerEvent : PrioMap
deriving DecidableEq

/-- The `policy` payload section (fields the core consumes). -/
structure PolicyInput where
  activeDays : List Int
  dayStart : Option (Int × Int)
  dayEnd : Option (Int × Int)
  eventBufferMinutes : Option Int
  schedulingLeadMinutes : Option Int
deriving DecidableEq

/-- A fixed / newFixed input event; the three flags carry the JSON defaults
(blocksCapacity true, isInPerson true, canOverlap false) already applied. -/
structure FixedInput where
  id : String
  startMin : Int
  endMin : Int
  blocksCapacity : Bool
  isInPerson : Bool
  canOverlap : Bool
deriving DecidableEq

/-- A movable input event (instants in local minutes). -/
structure MovableInput where
  id : String
  priority : Priority
  durationMin : Int
  isInPerson : Bool
  canOverlap : Bool
  currentStart : Option Int
  window : Window
  windowStart : Option Int
  windowEnd : Option Int
deriving DecidableEq

/-- A new input event: same shape as movable, without currentStart. -/
structure NewInput where
  id : String
  priority : Priority
  durationMin : Int
  isInPerson : Bool
  canOverlap : Bool
  window : Window
  windowStart : Option Int
  windowEnd : Option Int
deriving DecidableEq

/-- The whole solver input after JSON parsing and ISO localization.
`nowLocal` is the value of `datetime.now(tz)` (an external input). -/
structure Payload where
  horizonStart : Int
  horizonEnd : Int
  slotMinutes : Int
  preferred : List (Int × Int)
  fixed : List FixedInput
  newFixed : List FixedInput
  movable : List MovableInput
  newEvents : List NewInput
  weights : Weights
  policy : PolicyInput
  nowLocal : Int
deriving DecidableEq

/-- The `FixedEvent` dataclass after ingest. -/
structure FixedEvent where
  id : String
  start_slot : Int
  end_slot : Int
  blocks_capacity : Bool
deriving DecidableEq

/-- The `FlexibleEvent` dataclass after ingest. -/
structure FlexibleEvent where
  id : String
  priority : Priority
  duration_slots : Int
  overlap : Bool
  current_start_slot : Option Int
  window : Window
  window_start : Option Int
  window_end : Option Int
deriving DecidableEq

/-- The `Costs` dataclass. -/
structure Costs where
  total : Int
  dist : Int
  offpref : Int
  crossday : Int
  movecost : Int
deriving DecidableEq

/-- `count_offpref_slots`: slots of [s, s+dur) outside the preference set. -/
def count_offpref_slots (s dur : Int) (preferred_slots : List Int) : Int :=
  (((intRange s (s + dur)).filter (fun t => !decide (t ∈ preferred_slots))).length : Int)

/-- `crosses_day`: 1 when the first and last occupied slot start on different
calendar days, 0 otherwise (and 0 for non-positive durations). -/
def crosses_day (s dur : Int) (h : Horizon) : Int :=
  if dur ≤ 0 then 0
  else if day_index (h.slot_to_dt s) = day_index (h.slot_to_dt (s + dur - 1)) then 0 else 1

/-- `remove_conflicting_starts`: drop starts whose padded interval meets a
capacity-blocking fixed interval. -/
def remove_conflicting_starts (starts : List Int) (dur : Int) (fixed : List FixedEvent)
    (buffer_slots : Int) : List Int :=
  if fixed = [] then starts
  else starts.filter (fun s =>
    !(fixed.any (fun f =>
        f.blocks_capacity &&
        !(decide (s + dur + buffer_slots ≤ f.start_slot) ||
          decide (f.end_slot + buffer_slots ≤ s)))))

/-- `reduce_candidates`: keep the k earliest candidates. -/
def reduce_candidates (_pr : Priority) (starts : List Int) (k : Nat) : List Int := starts.take k

/-- `filter_to_preferred_if_possible`: restrict to fully-preferred starts when
at least one exists, otherwise keep the list unchanged. -/
def filter_to_preferred_if_possible (preferred_slots : List Int) (starts : List Int)
    (dur : Int) : List Int :=
  let preferred_starts := starts.filter (fun s =>
    (intRange s (s + dur)).all (fun t => decide (t ∈ preferred_slots)))
  if preferred_starts = [] then starts else preferred_starts

/-- `is_weekend`: weekday 5 or 6. -/
def is_weekend (m : Int) : Bool := decide (5 ≤ weekday m)

/-- `expand_window_slots`: the gross start-slot window of a flexible event. -/
def expand_window_slots (ev : FlexibleEvent) (h : Horizon) (now_slot : Int) : List Int :=
  match ev.window with
  | Window.PRONTO =>
      intRange (max now_slot 0) (min (now_slot + intCeilDiv (48 * 60) h.slotMinutes) h.total_slots)
  | Window.SEMANA =>
      let isoWeekday := weekday h.startMin + 1
      let monday := (day_index h.startMin - (isoWeekday - 1)) * 1440
      let sundayEnd := monday + 7 * 1440
      intRange (max (h.dt_to_slot monday) 0) (min (h.dt_to_slot sundayEnd) h.total_slots)
  | Window.MES =>
      let ymd := civilFromDays (day_index h.startMin)
      let monthStart := daysFromCivil ymd.1 ymd.2.1 1 * 1440
      let nextMonth :=
        if ymd.2.1 = 12 then daysFromCivil (ymd.1 + 1) 1 1 * 1440
        else daysFromCivil ymd.1 (ymd.2.1 + 1) 1 * 1440
      intRange (max (h.dt_to_slot monthStart) 0) (min (h.dt_to_slot nextMonth) h.total_slots)
  | Window.RANGO =>
      match ev.window_start, ev.window_end with
      | some ws, some we => intRange (max ws 0) (min we h.total_slots)
      | _, _ => intRange 0 0
  | Window.NONE => intRange 0 h.total_slots

/-- Pipeline context derived from the payload, top of `solve_schedule`. -/
def horizonOf (p : Payload) : Horizon := ⟨p.horizonStart, p.horizonEnd, p.slotMinutes⟩

/-- `allowed_days` processing: valid 0..6 entries as a set; all days when
none are valid. -/
def allowedDaysOf (p : Payload) : List Int :=
  let v := (p.policy.activeDays.filter (fun d => decide (0 ≤ d) && decide (d ≤ 6))).dedup
  if v = [] then [0, 1, 2, 3, 4, 5, 6] else v

def bufferMinutesOf (p : Payload) : Int := safe_positive_int p.policy.eventBufferMinutes 0

def bufferSlotsOf (p : Payload) : Int :=
  if bufferMinutesOf p ≠ 0 then intCeilDiv (bufferMinutesOf p) p.slotMinutes else 0

def leadMinutesOf (p : Payload) : Int := safe_positive_int p.policy.schedulingLeadMinutes 0

/-- `now_slot`: next slot at or after now plus the scheduling lead, clamped
to 0. -/
def nowSlotOf (p : Payload) : Int :=
  max 0 ((horizonOf p).dt_to_next_slot (p.nowLocal + leadMinutesOf p))

/-- The fallback preference map's day cursor values: the horizon start, then
each following midnight strictly before the horizon end. -/
def curListOf (h : Horizon) : List Int :=
  if h.startMin < h.endMin then
    h.startMin ::
      (List.range (day_index (h.endMin - 1) - day_index h.startMin).toNat).map
        (fun i => (day_index h.startMin + 1 + (i : Int)) * 1440)
  else []

/-- The preference map: expanded ranges when supplied, otherwise the
dayStart–dayEnd fallback over allowed days (full day when dayEnd ≤ dayStart). -/
def preferredSlotsOf (p : Payload) : List Int :=
  let h := horizonOf p
  if p.preferred ≠ [] then
    p.preferred.foldl (fun acc r => acc ++ h.slots_in_interval r.1 r.2) []
  else
    let ds := parse_hhmm p.policy.dayStart (9, 0)
    let de := parse_hhmm p.policy.dayEnd (18, 0)
    (curListOf h).foldl (fun acc cur =>
      if weekday cur ∈ allowedDaysOf p then
        let a := day_index cur * 1440 + ds.1 * 60 + ds.2
        let b := day_index cur * 1440 + de.1 * 60 + de.2
        if b ≤ a then acc ++ h.slots_in_interval (day_index cur * 1440) (day_index cur * 1440 + 1440)
        else acc ++ h.slots_in_interval a b
      else acc) []

/-- The slot interval covering [start, end) of a fixed input, clamped to the
horizon: floor the start, cover a partial final slot, clamp both ends. -/
def clamped_slots (h : Horizon) (f : FixedInput) : Int × Int :=
  let s := h.dt_to_slot f.startMin
  let e := h.dt_to_slot f.endMin
  let e := if h.slot_to_dt e < f.endMin then e + 1 else e
  (max s 0, min e h.total_slots)

/-- Fixed-event ingest of one input: the clamped slot interval; dropped
(none) when that interval is empty. -/
def ingestFixed (h : Horizon) (f : FixedInput) : Option FixedEvent :=
  if (clamped_slots h f).2 ≤ (clamped_slots h f).1 then none
  else some ⟨f.id, (clamped_slots h f).1, (clamped_slots h f).2,
    f.isInPerson && !f.canOverlap && f.blocksCapacity⟩

def fixedJsonOf (p : Payload) : List FixedInput := p.fixed ++ p.newFixed

def fixedOf (p : Payload) : List FixedEvent :=
  (fixedJsonOf p).filterMap (ingestFixed (horizonOf p))

def blockingOf (p : Payload) : List FixedEvent := (fixedOf p).filter (fun f => f.blocks_capacity)

/-- Do two capacity-blocking intervals overlap (the strict check of the
UI/UI pre-check)? -/
def conflict_pair (a b : FixedEvent) : Bool :=
  !(decide (a.end_slot ≤ b.start_slot) || decide (b.end_slot ≤ a.start_slot))

/-- The i < j double loop of the UI/UI pre-check, as conflict strings. -/
def ui_conflicts : List FixedEvent → List String
  | [] => []
  | a :: rest =>
      (rest.filter (conflict_pair a)).map
        (fun b => "UI/UI conflict: " ++ a.id ++ " vs " ++ b.id) ++ ui_conflicts rest

/-- The overlapping i < j pairs themselves (one per emitted diagnostic). -/
def offending_pairs : List FixedEvent → List (FixedEvent × FixedEvent)
  | [] => []
  | a :: rest =>
      (rest.filter (conflict_pair a)).map (fun b => (a, b)) ++ offending_pairs rest

def uiConflictsOf (p : Payload) : List String := ui_conflicts (blockingOf p)

/-- `duration_to_slots`: at least one slot. -/
def duration_to_slots (slotMinutes mins : Int) : Int := max 1 (intCeilDiv mins slotMinutes)

def ingestMovable (h : Horizon) (slotMinutes : Int) (m : MovableInput) : FlexibleEvent :=
  ⟨m.id, m.priority, duration_to_slots slotMinutes m.durationMin,
    !m.isInPerson || m.canOverlap,
    m.currentStart.map h.dt_to_slot, m.window,
    m.windowStart.map h.dt_to_slot, m.windowEnd.map h.dt_to_slot⟩

def ingestNew (h : Horizon) (slotMinutes : Int) (n : NewInput) : FlexibleEvent :=
  ⟨n.id, n.priority, duration_to_slots slotMinutes n.durationMin,
    !n.isInPerson || n.canOverlap,
    none, n.window,
    n.windowStart.map h.dt_to_slot, n.windowEnd.map h.dt_to_slot⟩

/-- The flexible-event list (movable then new), as ingested. -/
def flexOf (p : Payload) : List FlexibleEvent :=
  p.movable.map (ingestMovable (horizonOf p) p.slotMinutes) ++
    p.newEvents.map (ingestNew (horizonOf p) p.slotMinutes)

/-- `filter_allowed_days`: when the allowed-day set is a proper subset of the
week, require the weekdays of the first and last occupied slot to be allowed. -/
def filter_allowed_days (allowed : List Int) (h : Horizon) (starts : List Int)
    (dur : Int) : List Int :=
  if 7 ≤ allowed.length then starts
  else starts.filter (fun s =>
    decide (weekday (h.slot_to_dt s) ∈ allowed) &&
    decide (weekday (h.slot_to_dt (s + dur - 1)) ∈ allowed))

/-- Ascending sort (Python `list.sort()` / `sorted`). -/
def sort_starts (l : List Int) : List Int := List.insertionSort (fun a b => a ≤ b) l

/-- Python `sorted(set(l))`: ascending distinct values. -/
def sorted_unique (l : List Int) : List Int := (sort_starts l).dedup

/-- The re-admission of a current start below the lead cutoff (the
conditional append of the lead-time filter). -/
def lead_keep_current (now_slot : Int) (cur : Option Int) (base filtered : List Int) : List Int :=
  match cur with
  | some c => if c < now_slot ∧ c ∈ base then filtered ++ [c] else filtered
  | none => filtered

/-- The lead-time filter step: for UnI/InU priorities with a positive
now-slot, drop starts below the cutoff, re-admitting a current start below
the cutoff that was already in the incoming domain; normalize with
sorted(set(.)) when anything survives. -/
def lead_time_step (pr : Priority) (now_slot : Int) (cur : Option Int)
    (base : List Int) : List Int :=
  if (pr = Priority.UnI ∨ pr = Priority.InU) ∧ 0 < now_slot then
    let filtered := lead_keep_current now_slot cur base (base.filter (fun s => decide (now_slot ≤ s)))
    if filtered = [] then filtered else sorted_unique filtered
  else base

/-- The fixed-collision step as invoked by the candidate builder: applied
only to non-overlappable events and only when blocking intervals exist. -/
def fixed_filter_step (p : Payload) (e : FlexibleEvent) (starts : List Int) : List Int :=
  if !e.overlap && !(blockingOf p).isEmpty then
    remove_conflicting_starts starts e.duration_slots (blockingOf p)
      (if !e.overlap then bufferSlotsOf p else 0)
  else starts

/-- The full candidate-domain builder for one flexible event (the body of the
per-event loop of `solve_schedule`). -/
def buildStarts (p : Payload) (e : FlexibleEvent) : List Int :=
  let h := horizonOf p
  let base1 := expand_window_slots e h (nowSlotOf p)
  let buffer_for_event := if !e.overlap then bufferSlotsOf p else 0
  let latest_start := h.total_slots - (e.duration_slots + buffer_for_event)
  if latest_start < 0 then []
  else
    let base2 := base1.filter (fun s => decide (0 ≤ s) && decide (s ≤ latest_start))
    let base3 := filter_allowed_days (allowedDaysOf p) h base2 e.duration_slots
    let base4 := lead_time_step e.priority (nowSlotOf p) e.current_start_slot base3
    let base5 := fixed_filter_step p e base4
    let base6 := filter_to_preferred_if_possible (preferredSlotsOf p) base5 e.duration_slots
    reduce_candidates e.priority (sort_starts base6) 300

/-- The candidates dict: id-keyed, later events overwrite earlier ones. -/
def candidatesOf (p : Payload) : String → List Int :=
  (flexOf p).foldl (fun m e => fun idv => if idv = e.id then buildStarts p e else m idv)
    (fun _ => [])

/-- The per-candidate cost record precomputed by `solve_schedule`. -/
def costFor (p : Payload) (e : FlexibleEvent) (s : Int) : Costs :=
  let h := horizonOf p
  let dist_cost := max 0 (s - nowSlotOf p) * p.weights.distancePerSlot.get e.priority
  let offpref_cost :=
    count_offpref_slots s e.duration_slots (preferredSlotsOf p) *
      p.weights.offPreferencePerSlot.get e.priority
  let cross_cost :=
    if crosses_day s e.duration_slots h ≠ 0 then p.weights.crossDayPerEvent.get e.priority else 0
  let move_cost :=
    match e.current_start_slot with
    | none => 0
    | some c => if s = c then 0 else p.weights.move.get e.priority
  ⟨dist_cost + offpref_cost + cross_cost + move_cost,
    dist_cost, offpref_cost, cross_cost, move_cost⟩

/-- The costs dict keyed by (eventId, startSlot), populated per candidate. -/
def costTableOf (p : Payload) : String → Int → Costs :=
  (flexOf p).foldl
    (fun m e => (buildStarts p e).foldl
      (fun m2 s => fun idv t => if idv = e.id ∧ t = s then costFor p e s else m2 idv t) m)
    (fun _ _ => ⟨0, 0, 0, 0, 0⟩)

/-- An unplaced output record. -/
structure UnplacedRecord where
  id : String
  reason : String
deriving DecidableEq

/-- A placed output record (instants in local minutes; ISO rendering is
output plumbing). -/
structure PlacedRecord where
  id : String
  startMin : Int
  endMin : Int
deriving DecidableEq

/-- A moved output record. -/
structure MovedRecord where
  id : String
  fromStart : Int
  toStart : Int
  reason : String
deriving DecidableEq

structure Diagnostics where
  hardConflicts : List String
  summary : String
deriving DecidableEq

structure SolveResult where
  placed : List PlacedRecord
  moved : List MovedRecord
  unplaced : List UnplacedRecord
  score : Option Int
  diagnostics : Diagnostics
deriving DecidableEq

/-- Events marked unplaced before the model is built (empty domains). -/
def immediateUnplacedOf (p : Payload) : List UnplacedRecord :=
  ((flexOf p).filter (fun ev => (candidatesOf p ev.id).isEmpty)).map
    (fun ev => ⟨ev.id, "NoFeasibleCandidates"⟩)

/-- Events that enter the CP model (non-empty domains). -/
def flexModelOf (p : Payload) : List FlexibleEvent :=
  (flexOf p).filter (fun ev => !(candidatesOf p ev.id).isEmpty)

/-- The CP solve outcome: failure (any status other than OPTIMAL/FEASIBLE,
including a time-limit miss) or success with a valuation of the boolean
variables x[eventId, startSlot]. -/
inductive CpOutcome where
  | fail : CpOutcome
  | succ : (String → Int → Bool) → CpOutcome

def CpOutcome.isSuccess : CpOutcome → Bool
  | CpOutcome.fail => false
  | CpOutcome.succ _ => true

/-- The start chosen for one event by the solution read-back loop: the first
candidate whose variable is set. -/
def chosen_start (p : Payload) (val : String → Int → Bool) (ev : FlexibleEvent) : Option Int :=
  (candidatesOf p ev.id).find? (fun s => val ev.id s)

/-- Accumulator of the solution read-back loop. -/
structure Extraction where
  placed : List PlacedRecord
  moved : List MovedRecord
  unplaced : List UnplacedRecord
  total : Int

/-- The moved list after placing event ev at slot s: a moved record is
appended exactly when a current start exists and differs from s. -/
def moved_after (p : Payload) (acc : Extraction) (ev : FlexibleEvent) (s : Int) :
    List MovedRecord :=
  match ev.current_start_slot with
  | some c =>
      if c ≠ s then acc.moved ++ [⟨ev.id, (horizonOf p).slot_to_dt c,
        (horizonOf p).slot_to_dt s, "RepositionedByPolicy"⟩]
      else acc.moved
  | none => acc.moved

/-- One iteration of the read-back loop over a modelled event. -/
def extract_step (p : Payload) (val : String → Int → Bool) (acc : Extraction)
    (ev : FlexibleEvent) : Extraction :=
  match chosen_start p val ev with
  | none => ⟨acc.placed, acc.moved, acc.unplaced ++ [⟨ev.id, "NoChosenStart"⟩], acc.total⟩
  | some s =>
      ⟨acc.placed ++ [⟨ev.id, (horizonOf p).slot_to_dt s,
          (horizonOf p).slot_to_dt (s + ev.duration_slots)⟩],
        moved_after p acc ev s,
        acc.unplaced, acc.total + (costTableOf p ev.id s).total⟩

def extract_go (p : Payload) (val : String → Int → Bool) :
    List FlexibleEvent → Extraction → Extraction
  | [], acc => acc
  | ev :: rest, acc => extract_go p val rest (extract_step p val acc ev)

/-- The result projection of a successful solve: read back the assignment,
then assemble placed, moved, unplaced, score and the summary line. -/
def project_success (p : Payload) (val : String → Int → Bool) : SolveResult :=
  let ext := extract_go p val (flexModelOf p) ⟨[], [], [], 0⟩
  ⟨ext.placed, ext.moved, immediateUnplacedOf p ++ ext.unplaced, some ext.total,
    ⟨[], "Placed " ++ toString ext.placed.length ++ ", moved " ++
      toString ext.moved.length ++ ", unplaced " ++
      toString (immediateUnplacedOf p ++ ext.unplaced).length⟩⟩

/-- `solve_schedule`: UI/UI pre-check, then candidate building, then the CP
solve (abstracted by the outcome) and the result projection. -/
def solve_schedule (p : Payload) (out : CpOutcome) : SolveResult :=
  if uiConflictsOf p = [] then
    match out with
    | CpOutcome.fail =>
        ⟨[], [], immediateUnplacedOf p, none, ⟨["Infeasible model"], "No solution"⟩⟩
    | CpOutcome.succ val => project_success p val
  else ⟨[], [], [], none, ⟨uiConflictsOf p, "Infeasible: UI/UI conflict"⟩⟩

/-- The no-overlap intervals induced by one candidate selection: a padded
interval per non-overlappable chosen event plus every blocking fixed
interval. -/
def choiceIntervals (p : Payload) (choice : List (FlexibleEvent × Int)) : List (Int × Int) :=
  (choice.filter (fun c => !c.1.overlap)).map
    (fun c => (c.2, c.2 + c.1.duration_slots + bufferSlotsOf p)) ++
  (blockingOf p).map (fun f => (f.start_slot, f.end_slot))

def disjoint_pair (a b : Int × Int) : Bool := decide (a.2 ≤ b.1) || decide (b.2 ≤ a.1)

def allDisjoint : List (Int × Int) → Bool
  | [] => true
  | a :: rest => rest.all (disjoint_pair a) && allDisjoint rest

/-- Every selection of one candidate per modelled event (the exactly-one
constraint's solution space). -/
def allChoices (p : Payload) : List FlexibleEvent → List (List (FlexibleEvent × Int))
  | [] => [[]]
  | ev :: rest =>
      (((candidatesOf p ev.id).map
        (fun s => (allChoices p rest).map (fun ch => (ev, s) :: ch)))).flatten

/-- The linear objective value of a selection. -/
def choiceCost (p : Payload) (choice : List (FlexibleEvent × Int)) : Int :=
  (choice.map (fun c => (costTableOf p c.1.id c.2).total)).sum

/-- The exact reference solver for the built CP model: fails iff no selection
satisfies the no-overlap constraint, otherwise returns a minimum-cost
selection as a variable valuation. -/
def cpSolve (p : Payload) : CpOutcome :=
  let feas := (allChoices p (flexModelOf p)).filter
    (fun ch => allDisjoint (choiceIntervals p ch))
  match feas with
  | [] => CpOutcome.fail
  | c0 :: rest =>
      let best := rest.foldl (fun b c => if choiceCost p c < choiceCost p b then c else b) c0
      CpOutcome.succ (fun idv s => best.any (fun c => decide (c.1.id = idv) && decide (c.2 = s)))

/-- `solve_schedule` driven by the exact reference solver. -/
def solveScheduleDet (p : Payload) : SolveResult := solve_schedule p (cpSolve p)

/-! Concrete payloads used to instantiate the claims.  All use a one-day
horizon (minutes 0 to 1440, a Monday), 60-minute slots, the documented
example weights, an all-default policy and now at the horizon start. -/

/-- The contract's example weight table. -/
def wts : Weights := ⟨⟨20, 10⟩, ⟨4, 1⟩, ⟨1, 3⟩, ⟨2, 1⟩⟩

/-- An all-default policy section. -/
def pol0 : PolicyInput := ⟨[], none, none, none, none⟩

/-- Two in-person, non-overlappable new events forced onto the same single
candidate slot: the built model is genuinely infeasible. -/
def P1 : Payload :=
  ⟨0, 1440, 60, [(0, 1440)], [], [],
    [],
    [⟨"e1", Priority.UnI, 60, true, false, Window.RANGO, some 300, some 360⟩,
     ⟨"e2", Priority.UnI, 60, true, false, Window.RANGO, some 300, some 360⟩],
    wts, pol0, 0⟩

/-- One new event with a RANGO window missing its bounds: its candidate
domain is empty, so no event reaches the model. -/
def P2 : Payload :=
  ⟨0, 1440, 60, [(0, 1440)], [], [],
    [],
    [⟨"n1", Priority.InU, 30, false, true, Window.RANGO, none, none⟩],
    wts, pol0, 0⟩

/-- Two overlapping capacity-blocking fixed events (10:00-11:00 and
10:30-11:30): a UI/UI hard conflict. -/
def P3 : Payload :=
  ⟨0, 1440, 60, [(0, 1440)],
    [⟨"f1", 600, 660, true, true, false⟩, ⟨"f2", 630, 690, true, true, false⟩],
    [], [], [], wts, pol0, 0⟩

/-- One movable event (current start at slot 5) with candidate domain
[5, 6]: a solvable instance whose solution can reposition the event. -/
def P4 : Payload :=
  ⟨0, 1440, 60, [(0, 1440)], [], [],
    [⟨"m1", Priority.InU, 60, true, false, some 300, Window.RANGO, some 300, some 420⟩],
    [],
    wts, pol0, 0⟩

/-- A valuation that sets the slot-6 variable of every event. -/
def val6 : String → Int → Bool := fun _ s => decide (s = 6)

/-- Membership is invariant under the ascending sort. -/
theorem mem_sort_starts {x : Int} {l : List Int} : x ∈ sort_starts l ↔ x ∈ l :=
  List.mem_insertionSort _

/-- Membership is invariant under sorted(set(.)). -/
theorem mem_sorted_unique {x : Int} {l : List Int} : x ∈ sorted_unique l ↔ x ∈ l := by
  unfold sorted_unique
  rw [List.mem_dedup, mem_sort_starts]

/-- sorted(set(.)) has no duplicates. -/
theorem nodup_sorted_unique (l : List Int) : (sorted_unique l).Nodup :=
  List.nodup_dedup _

/-- Claim C5: a start survives the fixed-collision filter iff for every
capacity-blocking fixed interval the padded placement clears it
(s + dur + buf ≤ f.start or s ≥ f.end + buf); non-blocking fixed intervals
never remove a candidate; and events with overlapAllowed never go through
the filter at all. -/
theorem C5_fixed_collision_filter (starts : List Int) (dur : Int) (fixed : List FixedEvent)
    (buf : Int) :
    (∀ s, s ∈ remove_conflicting_starts starts dur fixed buf ↔
      (s ∈ starts ∧ ∀ f ∈ fixed, f.blocks_capacity = true →
        (s + dur + buf ≤ f.start_slot ∨ f.end_slot + buf ≤ s)))
    ∧ (∀ f, f.blocks_capacity = false →
      remove_conflicting_starts starts dur (f :: fixed) buf =
        remove_conflicting_starts starts dur fixed buf)
    ∧ (∀ (p : Payload) (e : FlexibleEvent) (l : List Int), e.overlap = true →
      fixed_filter_step p e l = l) := by
  refine ⟨fun s => ?_, fun f hfb => ?_, fun p e l he => ?_⟩
  · unfold remove_conflicting_starts
    by_cases hf : fixed = []
    · subst hf
      simp
    · rw [if_neg hf, List.mem_filter]
      constructor
      · rintro ⟨hs, hall⟩
        rw [Bool.not_eq_true', List.any_eq_false] at hall
        refine ⟨hs, fun g hg hgb => ?_⟩
        have h' := hall g hg
        simp [hgb] at h'
        omega
      · rintro ⟨hs, hall⟩
        refine ⟨hs, ?_⟩
        rw [Bool.not_eq_true', List.any_eq_false]
        intro g hg
        by_cases hgb : g.blocks_capacity = true
        · have h' := hall g hg hgb
          simp [hgb]
          omega
        · rw [Bool.not_eq_true] at hgb
          simp [hgb]
  · unfold remove_conflicting_starts
    by_cases hf : fixed = []
    · subst hf
      rw [if_neg (by simp), if_pos rfl, List.filter_eq_self]
      intro s _
      simp [hfb]
    · rw [if_neg (by simp), if_neg hf]
      apply List.filter_congr
      intro s _
      simp [hfb]
  · simp [fixed_filter_step, he]

/-- Witness for C5: slot 0 with duration 2 clears a blocking interval
[2, 3) with no buffer. -/
theorem C5_fixed_collision_filter_check :
    0 ∈ remove_conflicting_starts [0, 2] 2 [⟨"f", 2, 3, true⟩] 0 :=
  ((C5_fixed_collision_filter [0, 2] 2 [⟨"f", 2, 3, true⟩] 0).1 0).mpr
    ⟨by decide, by decide⟩

/-- Claim C6: the prefer-preferred filter replaces the domain by the subset
of fully-preferred starts when that subset is non-empty, and is the identity
otherwise. -/
theorem C6_prefer_preferred (ps starts : List Int) (dur : Int) :
    ((∃ s ∈ starts, ∀ t ∈ intRange s (s + dur), t ∈ ps) →
      ∀ x, x ∈ filter_to_preferred_if_possible ps starts dur ↔
        (x ∈ starts ∧ ∀ t ∈ intRange x (x + dur), t ∈ ps))
    ∧ ((∀ s ∈ starts, ∃ t ∈ intRange s (s + dur), t ∉ ps) →
      filter_to_preferred_if_possible ps starts dur = starts) := by
  constructor
  · rintro ⟨s0, hs0, hall⟩ x
    unfold filter_to_preferred_if_possible
    have hmem : s0 ∈ starts.filter (fun s =>
        (intRange s (s + dur)).all (fun t => decide (t ∈ ps))) := by
      rw [List.mem_filter]
      exact ⟨hs0, by simpa [List.all_eq_true] using hall⟩
    rw [if_neg (List.ne_nil_of_mem hmem)]
    simp [List.mem_filter, List.all_eq_true]
  · intro hnone
    unfold filter_to_preferred_if_possible
    rw [if_pos]
    rw [List.filter_eq_nil_iff]
    intro s hs
    rcases hnone s hs with ⟨t, ht, htn⟩
    simp only [List.all_eq_true, decide_eq_true_eq, not_forall]
    exact ⟨t, ht, htn⟩

/-- Witness for C6: no start of [0, 1] is fully preferred for the set [9],
so the filter is the identity. -/
theorem C6_prefer_preferred_check :
    filter_to_preferred_if_possible [9] [0, 1] 1 = [0, 1] :=
  (C6_prefer_preferred [9] [0, 1] 1).2 (by decide)

/-- Claim C4: for UnI/InU priorities and a positive now-slot, the lead-time
filter keeps only starts of the incoming domain, removes every start below
now-slot except a current start that was already in the incoming domain,
keeps every start at or above now-slot, and yields a duplicate-free domain. -/
theorem C4_lead_time_filter (pr : Priority) (now : Int) (cur : Option Int) (base : List Int)
    (hpr : pr = Priority.UnI ∨ pr = Priority.InU) (hnow : 0 < now) :
    (∀ s ∈ lead_time_step pr now cur base, s ∈ base)
    ∧ (∀ s ∈ lead_time_step pr now cur base, s < now → cur = some s)
    ∧ (∀ s ∈ base, now ≤ s → s ∈ lead_time_step pr now cur base)
    ∧ (∀ c, cur = some c → c < now → c ∈ base → c ∈ lead_time_step pr now cur base)
    ∧ (lead_time_step pr now cur base).Nodup := by
  have hcond : (pr = Priority.UnI ∨ pr = Priority.InU) ∧ 0 < now := ⟨hpr, hnow⟩
  have hmemfil : ∀ s : Int, s ∈ base.filter (fun s => decide (now ≤ s)) ↔
      (s ∈ base ∧ now ≤ s) := by
    intro s
    simp [List.mem_filter]
  cases cur with
  | none =>
    unfold lead_time_step
    rw [if_pos hcond]
    simp only [lead_keep_current]
    refine ⟨?_, ?_, ?_, ?_, ?_⟩
    · intro s hs
      have hs' : s ∈ base.filter (fun s => decide (now ≤ s)) := by
        split at hs
        · exact hs
        · exact mem_sorted_unique.mp hs
      exact ((hmemfil s).mp hs').1
    · intro s hs hlt
      have hs' : s ∈ base.filter (fun s => decide (now ≤ s)) := by
        split at hs
        · exact hs
        · exact mem_sorted_unique.mp hs
      exact absurd ((hmemfil s).mp hs').2 (by omega)
    · intro s hs hge
      have hf : s ∈ base.filter (fun s => decide (now ≤ s)) := (hmemfil s).mpr ⟨hs, hge⟩
      rw [if_neg (List.ne_nil_of_mem hf)]
      exact mem_sorted_unique.mpr hf
    · intro c hc
      exact absurd hc (by simp)
    · split
      · rename_i h
        rw [h]
        exact List.nodup_nil
      · exact nodup_sorted_unique _
  | some c =>
    unfold lead_time_step
    rw [if_pos hcond]
    simp only [lead_keep_current]
    by_cases hcc : c < now ∧ c ∈ base
    · rw [if_pos hcc]
      have hmem2 : ∀ s : Int, s ∈ base.filter (fun s => decide (now ≤ s)) ++ [c] ↔
          ((s ∈ base ∧ now ≤ s) ∨ s = c) := by
        intro s
        rw [List.mem_append, hmemfil s]
        simp
      refine ⟨?_, ?_, ?_, ?_, ?_⟩
      · intro s hs
        have hs' : s ∈ base.filter (fun s => decide (now ≤ s)) ++ [c] := by
          split at hs
          · exact hs
          · exact mem_sorted_unique.mp hs
        rcases (hmem2 s).mp hs' with h' | h'
        · exact h'.1
        · exact h' ▸ hcc.2
      · intro s hs hlt
        have hs' : s ∈ base.filter (fun s => decide (now ≤ s)) ++ [c] := by
          split at hs
          · exact hs
          · exact mem_sorted_unique.mp hs
        rcases (hmem2 s).mp hs' with h' | h'
        · omega
        · rw [h']
      · intro s hs hge
        have hf : s ∈ base.filter (fun s => decide (now ≤ s)) ++ [c] :=
          (hmem2 s).mpr (Or.inl ⟨hs, hge⟩)
        rw [if_neg (List.ne_nil_of_mem hf)]
        exact mem_sorted_unique.mpr hf
      · intro c' hc' _ _
        have hcc' : c' = c := by injection hc'.symm
        subst hcc'
        have hf : c' ∈ base.filter (fun s => decide (now ≤ s)) ++ [c'] :=
          (hmem2 c').mpr (Or.inr rfl)
        rw [if_neg (List.ne_nil_of_mem hf)]
        exact mem_sorted_unique.mpr hf
      · split
        · rename_i h
          rw [h]
          exact List.nodup_nil
        · exact nodup_sorted_unique _
    · rw [if_neg hcc]
      refine ⟨?_, ?_, ?_, ?_, ?_⟩
      · intro s hs
        have hs' : s ∈ base.filter (fun s => decide (now ≤ s)) := by
          split at hs
          · exact hs
          · exact mem_sorted_unique.mp hs
        exact ((hmemfil s).mp hs').1
      · intro s hs hlt
        have hs' : s ∈ base.filter (fun s => decide (now ≤ s)) := by
          split at hs
          · exact hs
          · exact mem_sorted_unique.mp hs
        exact absurd ((hmemfil s).mp hs').2 (by omega)
      · intro s hs hge
        have hf : s ∈ base.filter (fun s => decide (now ≤ s)) := (hmemfil s).mpr ⟨hs, hge⟩
        rw [if_neg (List.ne_nil_of_mem hf)]
        exact mem_sorted_unique.mpr hf
      · intro c' hc' hlt hin
        have hcc' : c = c' := by injection hc'
        exact absurd ⟨hcc' ▸ hlt, hcc' ▸ hin⟩ hcc
      · split
        · rename_i h
          rw [h]
          exact List.nodup_nil
        · exact nodup_sorted_unique _

/-- Witness for C4: a current start 1 below the cutoff 3 that was in the
incoming domain is re-admitted. -/
theorem C4_lead_time_filter_check :
    1 ∈ lead_time_step Priority.UnI 3 (some 1) [1, 2, 5, 3] :=
  (C4_lead_time_filter Priority.UnI 3 (some 1) [1, 2, 5, 3]
    (Or.inl rfl) (by decide)).2.2.2.1 1 rfl (by decide) (by decide)

/-- Claim C7: a candidate's cost record satisfies total = dist + offPref +
crossDay + move with dist, offPref, crossDay and move given by the
documented formulas, and all four components are non-negative under
non-negative weights. -/
theorem C7_cost_components (p : Payload) (e : FlexibleEvent) (s : Int)
    (hdur : 0 < e.duration_slots)
    (hw : 0 ≤ p.weights.move.get e.priority ∧ 0 ≤ p.weights.distancePerSlot.get e.priority ∧
      0 ≤ p.weights.offPreferencePerSlot.get e.priority ∧
      0 ≤ p.weights.crossDayPerEvent.get e.priority) :
    (costFor p e s).total =
      (costFor p e s).dist + (costFor p e s).offpref + (costFor p e s).crossday +
        (costFor p e s).movecost
    ∧ (costFor p e s).dist = max 0 (s - nowSlotOf p) * p.weights.distancePerSlot.get e.priority
    ∧ (costFor p e s).offpref =
      (((intRange s (s + e.duration_slots)).filter
        (fun t => decide (t ∉ preferredSlotsOf p))).length : Int) *
        p.weights.offPreferencePerSlot.get e.priority
    ∧ (costFor p e s).crossday =
      (if day_index ((horizonOf p).slot_to_dt s) ≠
          day_index ((horizonOf p).slot_to_dt (s + e.duration_slots - 1)) then
        p.weights.crossDayPerEvent.get e.priority else 0)
    ∧ (costFor p e s).movecost =
      (match e.current_start_slot with
       | none => 0
       | some c => if s = c then 0 else p.weights.move.get e.priority)
    ∧ 0 ≤ (costFor p e s).dist ∧ 0 ≤ (costFor p e s).offpref
    ∧ 0 ≤ (costFor p e s).crossday ∧ 0 ≤ (costFor p e s).movecost := by
  obtain ⟨hwm, hwd, hwo, hwc⟩ := hw
  refine ⟨rfl, rfl, ?_, ?_, rfl, ?_, ?_, ?_, ?_⟩
  · show count_offpref_slots s e.duration_slots (preferredSlotsOf p) * _ = _
    unfold count_offpref_slots
    congr 2
    congr 1
    apply List.filter_congr
    intro t _
    simp [decide_not]
  · show (if crosses_day s e.duration_slots (horizonOf p) ≠ 0 then _ else _) = _
    by_cases hd : day_index ((horizonOf p).slot_to_dt s) =
        day_index ((horizonOf p).slot_to_dt (s + e.duration_slots - 1))
    · have hc : crosses_day s e.duration_slots (horizonOf p) = 0 := by
        unfold crosses_day
        rw [if_neg (by omega), if_pos hd]
      rw [hc]
      simp [hd]
    · have hc : crosses_day s e.duration_slots (horizonOf p) = 1 := by
        unfold crosses_day
        rw [if_neg (by omega), if_neg hd]
      rw [hc]
      simp [hd]
  · exact mul_nonneg (le_max_left 0 _) hwd
  · exact mul_nonneg (Int.natCast_nonneg _) hwo
  · show 0 ≤ (if crosses_day s e.duration_slots (horizonOf p) ≠ 0 then _ else _)
    split
    · exact hwc
    · exact le_refl 0
  · cases hcur : e.current_start_slot with
    | none => simp [costFor, hcur]
    | some c =>
      by_cases hsc : s = c
      · simp [costFor, hcur, hsc]
      · simp [costFor, hcur, hsc, hwm]

/-- Reference event for the C7 witness: duration 2, current start slot 3. -/
def e7 : FlexibleEvent := ⟨"c", Priority.UnI, 2, false, some 3, Window.NONE, none, none⟩

/-- Witness for C7: all components at a concrete candidate are non-negative. -/
theorem C7_cost_components_check : 0 ≤ (costFor P4 e7 5).movecost :=
  (C7_cost_components P4 e7 5 (by decide) (by decide)).2.2.2.2.2.2.2.2

/-- The blocking-pair test is false exactly when the two half-open intervals
are disjoint. -/
theorem conflict_pair_eq_false (a b : FixedEvent) :
    conflict_pair a b = false ↔ (a.end_slot ≤ b.start_slot ∨ b.end_slot ≤ a.start_slot) := by
  simp [conflict_pair]
  omega

/-- The UI/UI double loop finds no pair iff the blocking intervals are
pairwise disjoint. -/
theorem offending_pairs_eq_nil (l : List FixedEvent) :
    offending_pairs l = [] ↔
      l.Pairwise (fun a b => a.end_slot ≤ b.start_slot ∨ b.end_slot ≤ a.start_slot) := by
  induction l with
  | nil => simp [offending_pairs]
  | cons a rest ih =>
    rw [offending_pairs, List.append_eq_nil, List.map_eq_nil_iff, List.filter_eq_nil_iff,
      List.pairwise_cons, ih]
    constructor
    · rintro ⟨h1, h2⟩
      refine ⟨fun b hb => ?_, h2⟩
      cases hcb : conflict_pair a b with
      | false => exact (conflict_pair_eq_false a b).mp hcb
      | true => exact absurd hcb (h1 b hb)
    · rintro ⟨h1, h2⟩
      refine ⟨fun b hb => ?_, h2⟩
      intro hct
      rw [(conflict_pair_eq_false a b).mpr (h1 b hb)] at hct
      simp at hct

/-- Each emitted diagnostic string corresponds to one offending pair. -/
theorem ui_conflicts_eq_map (l : List FixedEvent) :
    ui_conflicts l = (offending_pairs l).map
      (fun q => "UI/UI conflict: " ++ q.1.id ++ " vs " ++ q.2.id) := by
  induction l with
  | nil => rfl
  | cons a rest ih =>
    rw [ui_conflicts, offending_pairs, List.map_append, List.map_map, ih]
    rfl

/-- Claim C2: when some pair of capacity-blocking fixed intervals strictly
overlaps, solve_schedule returns the early hard-conflict result — empty
placed/moved/unplaced, null score, one diagnostic per offending pair, the
fixed summary — for every solver outcome, and the result does not depend on
the flexible events, weights, preferences, policy or clock at all. -/
theorem C2_ui_conflict_precheck (p : Payload)
    (hconf : ¬ (blockingOf p).Pairwise
      (fun a b => a.end_slot ≤ b.start_slot ∨ b.end_slot ≤ a.start_slot)) :
    (∀ out, solve_schedule p out =
      ⟨[], [], [], none, ⟨ui_conflicts (blockingOf p), "Infeasible: UI/UI conflict"⟩⟩)
    ∧ ui_conflicts (blockingOf p) = (offending_pairs (blockingOf p)).map
      (fun q => "UI/UI conflict: " ++ q.1.id ++ " vs " ++ q.2.id)
    ∧ offending_pairs (blockingOf p) ≠ []
    ∧ (∀ pref M N W pol now' out out',
      solve_schedule (Payload.mk p.horizonStart p.horizonEnd p.slotMinutes pref p.fixed
        p.newFixed M N W pol now') out' = solve_schedule p out) := by
  have hne : offending_pairs (blockingOf p) ≠ [] := by
    intro h
    exact hconf ((offending_pairs_eq_nil _).mp h)
  have huine : uiConflictsOf p ≠ [] := by
    rw [uiConflictsOf, ui_conflicts_eq_map]
    simpa using hne
  have hmain : ∀ out, solve_schedule p out =
      ⟨[], [], [], none, ⟨ui_conflicts (blockingOf p), "Infeasible: UI/UI conflict"⟩⟩ := by
    intro out
    unfold solve_schedule
    rw [if_neg huine]
    rfl
  refine ⟨hmain, ui_conflicts_eq_map _, hne, ?_⟩
  intro pref M N W pol now' out out'
  rw [hmain out]
  have huine' : uiConflictsOf (Payload.mk p.horizonStart p.horizonEnd p.slotMinutes pref
      p.fixed p.newFixed M N W pol now') ≠ [] := huine
  unfold solve_schedule
  rw [if_neg huine']
  rfl

/-- Witness for C2: the overlapping blocking pair of P3 short-circuits the
pipeline with a single diagnostic. -/
theorem C2_ui_conflict_precheck_check :
    solve_schedule P3 CpOutcome.fail =
      ⟨[], [], [], none, ⟨["UI/UI conflict: f1 vs f2"], "Infeasible: UI/UI conflict"⟩⟩ :=
  ((C2_ui_conflict_precheck P3
      (fun hp => absurd ((offending_pairs_eq_nil (blockingOf P3)).mpr hp)
        (by decide))).1 CpOutcome.fail).trans (by decide)

/-- Filtering to the inputs an option-valued map keeps does not change its
filterMap. -/
theorem filterMap_isSome_filter {α β : Type} (f : α → Option β) (l : List α) :
    (l.filter (fun x => (f x).isSome)).filterMap f = l.filterMap f := by
  induction l with
  | nil => rfl
  | cons a rest ih =>
    cases hfa : f a with
    | none => simp [List.filter_cons, List.filterMap_cons, hfa, ih]
    | some b => simp [List.filter_cons, List.filterMap_cons, hfa, ih]

/-- Claim C10: every ingested fixed event has a non-empty slot interval
inside the horizon bounds; an input whose clamped slot interval is empty is
dropped by ingest; and dropping exactly those inputs changes neither the
ingested fixed-event list nor the UI/UI diagnostics. -/
theorem C10_fixed_ingest_invariant (p : Payload) :
    (∀ f ∈ fixedOf p, 0 ≤ f.start_slot ∧ f.start_slot < f.end_slot ∧
      f.end_slot ≤ (horizonOf p).total_slots)
    ∧ (∀ g : FixedInput, ingestFixed (horizonOf p) g = none ↔
      (clamped_slots (horizonOf p) g).2 ≤ (clamped_slots (horizonOf p) g).1)
    ∧ fixedOf (Payload.mk p.horizonStart p.horizonEnd p.slotMinutes p.preferred
        (p.fixed.filter (fun g => (ingestFixed (horizonOf p) g).isSome))
        (p.newFixed.filter (fun g => (ingestFixed (horizonOf p) g).isSome))
        p.movable p.newEvents p.weights p.policy p.nowLocal) = fixedOf p
    ∧ uiConflictsOf (Payload.mk p.horizonStart p.horizonEnd p.slotMinutes p.preferred
        (p.fixed.filter (fun g => (ingestFixed (horizonOf p) g).isSome))
        (p.newFixed.filter (fun g => (ingestFixed (horizonOf p) g).isSome))
        p.movable p.newEvents p.weights p.policy p.nowLocal) = uiConflictsOf p := by
  have h3 : fixedOf (Payload.mk p.horizonStart p.horizonEnd p.slotMinutes p.preferred
      (p.fixed.filter (fun g => (ingestFixed (horizonOf p) g).isSome))
      (p.newFixed.filter (fun g => (ingestFixed (horizonOf p) g).isSome))
      p.movable p.newEvents p.weights p.policy p.nowLocal) = fixedOf p := by
    show (p.fixed.filter (fun g => (ingestFixed (horizonOf p) g).isSome) ++
        p.newFixed.filter (fun g => (ingestFixed (horizonOf p) g).isSome)).filterMap
          (ingestFixed (horizonOf p)) =
      (p.fixed ++ p.newFixed).filterMap (ingestFixed (horizonOf p))
    rw [List.filterMap_append, List.filterMap_append, filterMap_isSome_filter,
      filterMap_isSome_filter]
  refine ⟨?_, ?_, h3, ?_⟩
  · intro f hf
    rw [fixedOf, List.mem_filterMap] at hf
    obtain ⟨g, _, hfg⟩ := hf
    simp only [ingestFixed] at hfg
    split at hfg
    · exact absurd hfg (by simp)
    · rename_i hcond
      injection hfg with hx
      subst hx
      refine ⟨?_, not_le.mp hcond, ?_⟩
      · show 0 ≤ (clamped_slots (horizonOf p) g).1
        simp only [clamped_slots]
        exact le_max_right _ _
      · show (clamped_slots (horizonOf p) g).2 ≤ _
        simp only [clamped_slots]
        exact min_le_right _ _
  · intro g
    simp only [ingestFixed]
    split
    · rename_i hcond
      simp [hcond]
    · rename_i hcond
      simp [hcond]
  · unfold uiConflictsOf blockingOf
    rw [h3]

/-- Witness for C10: the first ingested blocking event of P3 has a
non-negative start slot. -/
theorem C10_fixed_ingest_invariant_check :
    (0 : Int) ≤ (FixedEvent.mk "f1" 10 11 true).start_slot :=
  ((C10_fixed_ingest_invariant P3).1 ⟨"f1", 10, 11, true⟩ (by decide)).1

/-- The read-back step when no variable of the event is set. -/
theorem extract_step_none (p : Payload) (val : String → Int → Bool) (acc : Extraction)
    (ev : FlexibleEvent) (h : chosen_start p val ev = none) :
    extract_step p val acc ev =
      ⟨acc.placed, acc.moved, acc.unplaced ++ [⟨ev.id, "NoChosenStart"⟩], acc.total⟩ := by
  unfold extract_step
  rw [h]

/-- The read-back step when the first set variable is at slot s. -/
theorem extract_step_some (p : Payload) (val : String → Int → Bool) (acc : Extraction)
    (ev : FlexibleEvent) (s : Int) (h : chosen_start p val ev = some s) :
    extract_step p val acc ev =
      ⟨acc.placed ++ [⟨ev.id, (horizonOf p).slot_to_dt s,
          (horizonOf p).slot_to_dt (s + ev.duration_slots)⟩],
        moved_after p acc ev s,
        acc.unplaced, acc.total + (costTableOf p ev.id s).total⟩ := by
  unfold extract_step
  rw [h]

/-- No moved record is added for an event without a current start. -/
theorem moved_after_none (p : Payload) (acc : Extraction) (ev : FlexibleEvent) (s : Int)
    (h : ev.current_start_slot = none) : moved_after p acc ev s = acc.moved := by
  unfold moved_after
  rw [h]

/-- The moved record appended for an event with a current start. -/
theorem moved_after_some (p : Payload) (acc : Extraction) (ev : FlexibleEvent) (s c : Int)
    (h : ev.current_start_slot = some c) :
    moved_after p acc ev s =
      (if c ≠ s then acc.moved ++ [⟨ev.id, (horizonOf p).slot_to_dt c,
        (horizonOf p).slot_to_dt s, "RepositionedByPolicy"⟩] else acc.moved) := by
  unfold moved_after
  rw [h]

/-- The read-back loop appends one placed record per event with a chosen
start and accumulates exactly those events' table costs. -/
theorem extract_go_placed_total (p : Payload) (val : String → Int → Bool)
    (l : List FlexibleEvent) : ∀ acc : Extraction,
    (extract_go p val l acc).placed = acc.placed ++ l.filterMap (fun ev =>
      (chosen_start p val ev).map (fun s => PlacedRecord.mk ev.id
        ((horizonOf p).slot_to_dt s) ((horizonOf p).slot_to_dt (s + ev.duration_slots))))
    ∧ (extract_go p val l acc).total = acc.total + (l.filterMap (fun ev =>
      (chosen_start p val ev).map (fun s => (costTableOf p ev.id s).total))).sum := by
  induction l with
  | nil =>
    intro acc
    simp [extract_go]
  | cons ev rest ih =>
    intro acc
    rw [extract_go]
    cases hcs : chosen_start p val ev with
    | none =>
      rw [extract_step_none p val acc ev hcs]
      refine ⟨?_, ?_⟩
      · rw [(ih _).1]
        simp [List.filterMap_cons, hcs]
      · rw [(ih _).2]
        simp [List.filterMap_cons, hcs]
    | some s =>
      rw [extract_step_some p val acc ev s hcs]
      refine ⟨?_, ?_⟩
      · rw [(ih _).1]
        simp [List.filterMap_cons, hcs]
      · rw [(ih _).2]
        simp [List.filterMap_cons, hcs]
        omega

/-- Each event of the read-back loop lands in exactly one of placed or
unplaced (counted per id, with multiplicity). -/
theorem extract_go_count (p : Payload) (val : String → Int → Bool)
    (l : List FlexibleEvent) : ∀ (acc : Extraction) (idv : String),
    ((extract_go p val l acc).placed.map PlacedRecord.id).count idv +
      ((extract_go p val l acc).unplaced.map UnplacedRecord.id).count idv =
    (acc.placed.map PlacedRecord.id).count idv +
      (acc.unplaced.map UnplacedRecord.id).count idv +
      (l.map FlexibleEvent.id).count idv := by
  induction l with
  | nil =>
    intro acc idv
    simp [extract_go]
  | cons ev rest ih =>
    intro acc idv
    rw [extract_go]
    cases hcs : chosen_start p val ev with
    | none =>
      rw [extract_step_none p val acc ev hcs, ih]
      by_cases hid : idv = ev.id
      · subst hid
        simp [List.map_append, List.count_append, List.count_cons]
        try omega
      · simp [List.map_append, List.count_append, List.count_cons, hid]
        try omega
    | some s =>
      rw [extract_step_some p val acc ev s hcs, ih]
      by_cases hid : idv = ev.id
      · subst hid
        simp [List.map_append, List.count_append, List.count_cons]
        try omega
      · simp [List.map_append, List.count_append, List.count_cons, hid]
        try omega

/-- Every moved record produced by the read-back loop belongs to an event
that was also placed. -/
theorem extract_go_moved (p : Payload) (val : String → Int → Bool)
    (l : List FlexibleEvent) : ∀ acc : Extraction,
    (∀ m ∈ acc.moved, m.id ∈ acc.placed.map PlacedRecord.id) →
    ∀ m ∈ (extract_go p val l acc).moved,
      m.id ∈ (extract_go p val l acc).placed.map PlacedRecord.id := by
  induction l with
  | nil =>
    intro acc hinv
    simpa [extract_go] using hinv
  | cons ev rest ih =>
    intro acc hinv
    rw [extract_go]
    apply ih
    cases hcs : chosen_start p val ev with
    | none =>
      rw [extract_step_none p val acc ev hcs]
      exact hinv
    | some s =>
      rw [extract_step_some p val acc ev s hcs]
      intro m hm
      have hm' : m ∈ moved_after p acc ev s := hm
      show m.id ∈ (acc.placed ++ [PlacedRecord.mk ev.id ((horizonOf p).slot_to_dt s)
        ((horizonOf p).slot_to_dt (s + ev.duration_slots))]).map PlacedRecord.id
      rw [List.map_append, List.mem_append]
      cases hcur : ev.current_start_slot with
      | none =>
        rw [moved_after_none p acc ev s hcur] at hm'
        exact Or.inl (hinv m hm')
      | some c =>
        rw [moved_after_some p acc ev s c hcur] at hm'
        by_cases hne : c ≠ s
        · rw [if_pos hne] at hm'
          rcases List.mem_append.mp hm' with hm2 | hm2
          · exact Or.inl (hinv m hm2)
          · right
            simp only [List.mem_singleton] at hm2
            subst hm2
            simp
        · rw [if_neg hne] at hm'
          exact Or.inl (hinv m hm')

/-- Claim C1 (amended): on a solver failure after a clean UI/UI pre-check,
the result has empty placed and moved lists, null score, the single
diagnostic, and an unplaced list holding exactly the events whose candidate
domains were empty — events that entered the model are absent. -/
theorem C1_infeasible_branch (p : Payload) (hc : uiConflictsOf p = []) :
    solve_schedule p CpOutcome.fail =
      ⟨[], [], immediateUnplacedOf p, none, ⟨["Infeasible model"], "No solution"⟩⟩ := by
  unfold solve_schedule
  rw [if_pos hc]

/-- Counterexample for C1: on P1 both flexible events survive ingest with
non-empty domains, the model is infeasible, and the failure result's
unplaced list is empty instead of listing them. -/
theorem C1_counterexample :
    (flexOf P1).map FlexibleEvent.id = ["e1", "e2"]
    ∧ candidatesOf P1 "e1" ≠ [] ∧ candidatesOf P1 "e2" ≠ []
    ∧ (cpSolve P1).isSuccess = false
    ∧ (solveScheduleDet P1).diagnostics.hardConflicts = ["Infeasible model"]
    ∧ (solveScheduleDet P1).unplaced = []
    ∧ (solveScheduleDet P1).placed = []
    ∧ (solveScheduleDet P1).moved = [] := by
  decide

/-- Witness for C1: the failure branch on P2. -/
theorem C1_infeasible_branch_check :
    uiConflictsOf P2 = [] ∧ solve_schedule P2 CpOutcome.fail =
      ⟨[], [], immediateUnplacedOf P2, none, ⟨["Infeasible model"], "No solution"⟩⟩ :=
  ⟨by decide, C1_infeasible_branch P2 (by decide)⟩

/-- Counts are additive across the empty/non-empty domain partition of the
flexible events. -/
theorem count_filter_partition (l : List FlexibleEvent) (P : FlexibleEvent → Bool)
    (idv : String) :
    ((l.filter P).map FlexibleEvent.id).count idv +
      ((l.filter (fun x => !P x)).map FlexibleEvent.id).count idv =
    (l.map FlexibleEvent.id).count idv := by
  induction l with
  | nil => simp
  | cons a rest ih =>
    cases hPa : P a with
    | false =>
      by_cases hid : idv = a.id
      · subst hid
        simp [List.filter_cons, hPa, List.count_cons]
        try omega
      · simp [List.filter_cons, hPa, List.count_cons, hid]
        try omega
    | true =>
      by_cases hid : idv = a.id
      · subst hid
        simp [List.filter_cons, hPa, List.count_cons]
        try omega
      · simp [List.filter_cons, hPa, List.count_cons, hid]
        try omega

/-- Claim C3 (amended): when the UI/UI pre-check passes and the solver
succeeds, every ingested flexible event appears in exactly one of placed or
unplaced (per id, with multiplicity), and every moved id is a placed id. -/
theorem C3_partition_on_success (p : Payload) (val : String → Int → Bool)
    (hc : uiConflictsOf p = []) :
    (∀ idv : String,
      ((solve_schedule p (CpOutcome.succ val)).placed.map PlacedRecord.id).count idv +
        ((solve_schedule p (CpOutcome.succ val)).unplaced.map UnplacedRecord.id).count idv =
      ((flexOf p).map FlexibleEvent.id).count idv)
    ∧ (∀ m ∈ (solve_schedule p (CpOutcome.succ val)).moved,
      m.id ∈ (solve_schedule p (CpOutcome.succ val)).placed.map PlacedRecord.id) := by
  have hsolve : solve_schedule p (CpOutcome.succ val) = project_success p val := by
    unfold solve_schedule
    rw [if_pos hc]
  rw [hsolve]
  constructor
  · intro idv
    show ((extract_go p val (flexModelOf p) ⟨[], [], [], 0⟩).placed.map
        PlacedRecord.id).count idv +
      (((immediateUnplacedOf p ++
        (extract_go p val (flexModelOf p) ⟨[], [], [], 0⟩).unplaced).map
          UnplacedRecord.id).count idv) = _
    rw [List.map_append, List.count_append]
    have hcount := extract_go_count p val (flexModelOf p) ⟨[], [], [], 0⟩ idv
    simp only [List.map_nil, List.count_nil] at hcount
    have himm : ((immediateUnplacedOf p).map UnplacedRecord.id).count idv =
        (((flexOf p).filter (fun ev => (candidatesOf p ev.id).isEmpty)).map
          FlexibleEvent.id).count idv := by
      rw [immediateUnplacedOf, List.map_map]
      rfl
    have hpart := count_filter_partition (flexOf p)
      (fun ev => (candidatesOf p ev.id).isEmpty) idv
    have hmeq : (flexOf p).filter (fun x => !(candidatesOf p x.id).isEmpty) = flexModelOf p :=
      rfl
    rw [hmeq] at hpart
    rw [himm]
    omega
  · show ∀ m ∈ (extract_go p val (flexModelOf p) ⟨[], [], [], 0⟩).moved, _
    exact extract_go_moved p val (flexModelOf p) ⟨[], [], [], 0⟩ (by simp)

/-- Counterexample for C3: on P1 (solver failure) the flexible event e1
appears in neither placed nor unplaced. -/
theorem C3_counterexample :
    "e1" ∈ (flexOf P1).map FlexibleEvent.id
    ∧ "e1" ∉ (solveScheduleDet P1).placed.map PlacedRecord.id
    ∧ "e1" ∉ (solveScheduleDet P1).unplaced.map UnplacedRecord.id := by
  decide

/-- Witness for C3: the partition count for the single event of P4. -/
theorem C3_partition_on_success_check :
    ((solve_schedule P4 (CpOutcome.succ val6)).placed.map PlacedRecord.id).count "m1" +
      ((solve_schedule P4 (CpOutcome.succ val6)).unplaced.map UnplacedRecord.id).count "m1" =
    ((flexOf P4).map FlexibleEvent.id).count "m1" :=
  (C3_partition_on_success P4 val6 (by decide)).1 "m1"

/-- Claim C8: on a successful solve the score is the sum, over the placed
events, of the cost-table total of the chosen candidate, the placed list is
exactly the events with a chosen start, and the score is never null. -/
theorem C8_score_consistency (p : Payload) (val : String → Int → Bool)
    (hc : uiConflictsOf p = []) :
    (solve_schedule p (CpOutcome.succ val)).score =
      some (((flexModelOf p).filterMap (fun ev => (chosen_start p val ev).map
        (fun s => (costTableOf p ev.id s).total))).sum)
    ∧ (solve_schedule p (CpOutcome.succ val)).placed =
      (flexModelOf p).filterMap (fun ev => (chosen_start p val ev).map
        (fun s => PlacedRecord.mk ev.id ((horizonOf p).slot_to_dt s)
          ((horizonOf p).slot_to_dt (s + ev.duration_slots))))
    ∧ (solve_schedule p (CpOutcome.succ val)).score ≠ none := by
  have hsolve : solve_schedule p (CpOutcome.succ val) = project_success p val := by
    unfold solve_schedule
    rw [if_pos hc]
  rw [hsolve]
  have h := extract_go_placed_total p val (flexModelOf p) ⟨[], [], [], 0⟩
  refine ⟨?_, ?_, ?_⟩
  · show some (extract_go p val (flexModelOf p) ⟨[], [], [], 0⟩).total = _
    rw [h.2]
    simp
  · show (extract_go p val (flexModelOf p) ⟨[], [], [], 0⟩).placed = _
    rw [h.1]
    simp
  · show some (extract_go p val (flexModelOf p) ⟨[], [], [], 0⟩).total ≠ none
    simp

/-- Witness for C8: a concrete successful solve has a non-null score. -/
theorem C8_score_consistency_check :
    (solve_schedule P4 (CpOutcome.succ val6)).score ≠ none :=
  (C8_score_consistency P4 val6 (by decide)).2.2

/-- Pairwise-disjoint blocking intervals pass the reference solver's
no-overlap check. -/
theorem allDisjoint_blocking (l : List FixedEvent)
    (h : l.Pairwise (fun a b => a.end_slot ≤ b.start_slot ∨ b.end_slot ≤ a.start_slot)) :
    allDisjoint (l.map (fun f => (f.start_slot, f.end_slot))) = true := by
  induction l with
  | nil => rfl
  | cons a rest ih =>
    rw [List.pairwise_cons] at h
    rw [List.map_cons, allDisjoint, Bool.and_eq_true]
    refine ⟨?_, ih h.2⟩
    rw [List.all_eq_true]
    intro x hx
    rw [List.mem_map] at hx
    obtain ⟨b, hb, rfl⟩ := hx
    simpa [disjoint_pair] using h.1 b hb

/-- Claim C9: when every flexible event's candidate domain is empty (and no
UI/UI conflict exists), no event reaches the model, the reference solve
succeeds, and the result places nothing, moves nothing, marks every
flexible event NoFeasibleCandidates, and reports score 0 (not null). -/
theorem C9_all_unplaced_success (p : Payload) (hc : uiConflictsOf p = [])
    (hd : ∀ e ∈ flexOf p, candidatesOf p e.id = []) :
    flexModelOf p = []
    ∧ (cpSolve p).isSuccess = true
    ∧ (solveScheduleDet p).placed = []
    ∧ (solveScheduleDet p).moved = []
    ∧ (solveScheduleDet p).unplaced =
        (flexOf p).map (fun e => ⟨e.id, "NoFeasibleCandidates"⟩)
    ∧ (solveScheduleDet p).score = some 0 := by
  have hmodel : flexModelOf p = [] := by
    rw [flexModelOf, List.filter_eq_nil_iff]
    intro e he
    simp [hd e he]
  have himm : immediateUnplacedOf p =
      (flexOf p).map (fun e => ⟨e.id, "NoFeasibleCandidates"⟩) := by
    rw [immediateUnplacedOf]
    congr 1
    rw [List.filter_eq_self]
    intro e he
    simp [hd e he]
  have hfeas : allDisjoint (choiceIntervals p []) = true := by
    rw [choiceIntervals]
    simp only [List.filter_nil, List.map_nil, List.nil_append]
    apply allDisjoint_blocking
    rw [← offending_pairs_eq_nil]
    have hc' := hc
    rw [uiConflictsOf, ui_conflicts_eq_map] at hc'
    exact List.map_eq_nil_iff.mp hc'
  have hsolver : cpSolve p = CpOutcome.succ
      (fun idv s => ([] : List (FlexibleEvent × Int)).any
        (fun c => decide (c.1.id = idv) && decide (c.2 = s))) := by
    rw [cpSolve, hmodel]
    have hch : allChoices p ([] : List FlexibleEvent) = [[]] := rfl
    rw [hch]
    rw [show ([[]] : List (List (FlexibleEvent × Int))).filter
        (fun ch => allDisjoint (choiceIntervals p ch)) = [[]] from by
      rw [List.filter_cons]
      simp [hfeas]]
    rfl
  refine ⟨hmodel, by rw [hsolver]; rfl, ?_, ?_, ?_, ?_⟩
  · rw [solveScheduleDet, hsolver]
    unfold solve_schedule
    rw [if_pos hc]
    show (project_success p _).placed = []
    unfold project_success
    rw [hmodel]
    rfl
  · rw [solveScheduleDet, hsolver]
    unfold solve_schedule
    rw [if_pos hc]
    show (project_success p _).moved = []
    unfold project_success
    rw [hmodel]
    rfl
  · rw [solveScheduleDet, hsolver]
    unfold solve_schedule
    rw [if_pos hc]
    show (project_success p _).unplaced = _
    unfold project_success
    rw [hmodel]
    show immediateUnplacedOf p ++ (extract_go p _ [] ⟨[], [], [], 0⟩).unplaced = _
    rw [himm]
    simp [extract_go]
  · rw [solveScheduleDet, hsolver]
    unfold solve_schedule
    rw [if_pos hc]
    show (project_success p _).score = some 0
    unfold project_success
    rw [hmodel]
    rfl

/-- Witness for C9: the empty-domain payload P2. -/
theorem C9_all_unplaced_success_check :
    (solveScheduleDet P2).unplaced =
      (flexOf P2).map (fun e => ⟨e.id, "NoFeasibleCandidates"⟩) :=
  (C9_all_unplaced_success P2 (by decide) (by decide)).2.2.2.2.1

end AgendaSolver
